import Mathlib

/-!
Shallow embedding of the task-manager program (`src/main.rs`).

Lines of the backing store are modelled as `List Char` (one entry per Unicode
scalar, matching Rust's `str::chars`).  The store is a `List (List Char)` in
file order.  Calendar dates are modelled as year/month/day naturals; the store
format only ever produces four-digit years, so natural years suffice.
-/

/-- Calendar date, as produced by parsing a `YYYY-MM-DD` capture. -/
structure Date where
  year : Nat
  month : Nat
  day : Nat
deriving DecidableEq, Repr

/-- Gregorian leap-year rule (as in chrono). -/
def isLeapYear (y : Nat) : Bool :=
  y % 4 == 0 && (y % 100 != 0 || y % 400 == 0)

/-- Number of days in a month (months are 1..12). -/
def daysInMonth (y m : Nat) : Nat :=
  if m = 1 then 31
  else if m = 2 then (if isLeapYear y then 29 else 28)
  else if m = 3 then 31
  else if m = 4 then 30
  else if m = 5 then 31
  else if m = 6 then 30
  else if m = 7 then 31
  else if m = 8 then 31
  else if m = 9 then 30
  else if m = 10 then 31
  else if m = 11 then 30
  else if m = 12 then 31
  else 0

/-- Injective, order-preserving key for valid dates (month ≤ 12, day ≤ 31):
chronological order of chrono's `NaiveDate` coincides with lexicographic
order on (year, month, day). -/
def dateKey (d : Date) : Nat :=
  d.year * 10000 + d.month * 100 + d.day

/-- Chronological comparison of dates (chrono's `<=` on `NaiveDate`). -/
def dateLe (a b : Date) : Bool :=
  decide (dateKey a ≤ dateKey b)

/-- Successor day in the Gregorian calendar. -/
def nextDay (d : Date) : Date :=
  if d.day < daysInMonth d.year d.month then ⟨d.year, d.month, d.day + 1⟩
  else if d.month < 12 then ⟨d.year, d.month + 1, 1⟩
  else ⟨d.year + 1, 1, 1⟩

/-- `addDays n d` models chrono's `d + Duration::days(n)` for valid dates. -/
def addDays : Nat → Date → Date
  | 0, d => d
  | n + 1, d => addDays n (nextDay d)

/-- Predecessor day in the Gregorian calendar. -/
def prevDay (d : Date) : Date :=
  if 1 < d.day then ⟨d.year, d.month, d.day - 1⟩
  else if 1 < d.month then ⟨d.year, d.month - 1, daysInMonth d.year (d.month - 1)⟩
  else ⟨d.year - 1, 12, 31⟩

/-- `subDays n d` models chrono's `d - Duration::days(n)` for valid dates. -/
def subDays : Nat → Date → Date
  | 0, d => d
  | n + 1, d => subDays n (prevDay d)

/-- Numeric value of an ASCII digit character. -/
def digitVal (c : Char) : Nat := c.toNat - '0'.toNat

/-- Shape check for the regex fragment `\d{4}-\d{2}-\d{2}` (exactly ten
characters). -/
def dateShape (cs : List Char) : Bool :=
  match cs with
  | [y1, y2, y3, y4, h1, m1, m2, h2, d1, d2] =>
    y1.isDigit && y2.isDigit && y3.isDigit && y4.isDigit && (h1 == '-') &&
    m1.isDigit && m2.isDigit && (h2 == '-') && d1.isDigit && d2.isDigit
  | _ => false

/-- Parse a ten-character `YYYY-MM-DD` capture, validating the calendar date
as chrono's `NaiveDate::parse_from_str(_, "%Y-%m-%d")` does; `none` on a
malformed or invalid date (e.g. month 13 or day 99). -/
def parseDateList (cs : List Char) : Option Date :=
  match cs with
  | [y1, y2, y3, y4, h1, m1, m2, h2, d1, d2] =>
    if y1.isDigit && y2.isDigit && y3.isDigit && y4.isDigit && (h1 == '-') &&
       m1.isDigit && m2.isDigit && (h2 == '-') && d1.isDigit && d2.isDigit then
      let y := ((digitVal y1 * 10 + digitVal y2) * 10 + digitVal y3) * 10 + digitVal y4
      let m := digitVal m1 * 10 + digitVal m2
      let d := digitVal d1 * 10 + digitVal d2
      if 1 ≤ m ∧ m ≤ 12 ∧ 1 ≤ d ∧ d ≤ daysInMonth y m then some ⟨y, m, d⟩ else none
    else none
  | _ => none

/-- Rust's `str::contains(pat)`: does `pat` occur as a contiguous substring? -/
def containsSub (pat : List Char) : List Char → Bool
  | [] => pat.isEmpty
  | c :: rest => pat.isPrefixOf (c :: rest) || containsSub pat rest

/-- Rust's `str::len()`: the UTF-8 byte length of the string. -/
def byteLen (cs : List Char) : Nat :=
  (cs.map Char.utf8Size).sum

/-- Rust's `str::trim()`: strip leading and trailing whitespace. -/
def trimChars (s : List Char) : List Char :=
  ((s.dropWhile Char.isWhitespace).reverse.dropWhile Char.isWhitespace).reverse

/-- Split at the first occurrence of character `g`: returns the characters
before it and the characters after it. -/
def splitAtChar (g : Char) : List Char → Option (List Char × List Char)
  | [] => none
  | c :: rest =>
    if c = g then some ([], rest)
    else (splitAtChar g rest).map (fun p => (c :: p.1, p.2))

/-- Everything after the first occurrence of `pat`; `[]` when `pat` does not
occur.  Models `s.splitn(2, pat).nth(1).unwrap_or("")` for nonempty `pat`. -/
def dropThroughFirst (pat : List Char) : List Char → List Char
  | [] => []
  | c :: rest =>
    if pat.isPrefixOf (c :: rest) then (c :: rest).drop pat.length
    else dropThroughFirst pat rest

/-- `s.splitn(2, pat).nth(1).unwrap_or("")`: with an empty pattern Rust's
splitter yields an initial empty piece and then the whole string. -/
def splitnRemainder (pat s : List Char) : List Char :=
  if pat = [] then s else dropThroughFirst pat s

/-- Fuel-indexed worker for `replaceAll` (the fuel is always at least the
length of the string, so the `0` case is never reached on a nonempty
string). -/
def replaceAllF (pat rep : List Char) : Nat → List Char → List Char
  | 0, s => s
  | _ + 1, [] => []
  | f + 1, c :: rest =>
    if pat ≠ [] ∧ pat.isPrefixOf (c :: rest) = true then
      rep ++ replaceAllF pat rep f ((c :: rest).drop pat.length)
    else
      c :: replaceAllF pat rep f rest

/-- Rust's `str::replace(pat, rep)`: replace every leftmost non-overlapping
occurrence of `pat` by `rep`. -/
def replaceAll (pat rep s : List Char) : List Char :=
  replaceAllF pat rep s.length s

/-- Leftmost match of the regex `g\s+(\d{4}-\d{2}-\d{2})` for a glyph `g`:
the ten-character date capture, if any.  Mirrors `DUE_DATE_RE` (g = 📅) and
`COMPLETION_DATE_RE` (g = ✅) from the source. -/
def findGlyphDate (g : Char) : List Char → Option (List Char)
  | [] => none
  | c :: rest =>
    if c = g then
      let ws := rest.takeWhile Char.isWhitespace
      let cand := (rest.dropWhile Char.isWhitespace).take 10
      if ws ≠ [] ∧ dateShape cand = true then some cand
      else findGlyphDate g rest
    else findGlyphDate g rest

/-- Leftmost match of `DATE_PART_RE`, i.e. `(📅[^📋]*📋[^\s]*)`: from the
first due-date glyph that is followed by a creation glyph, through that
creation glyph and the (possibly empty) run of non-whitespace characters
directly after it. -/
def findDatePart : List Char → Option (List Char)
  | [] => none
  | c :: rest =>
    if c = '📅' then
      match splitAtChar '📋' rest with
      | some (before, after) =>
        some ('📅' :: (before ++ '📋' :: after.takeWhile (fun ch => !ch.isWhitespace)))
      | none => findDatePart rest
    else findDatePart rest

/-- The pending status token `- [ ]`. -/
def pendingTok : List Char := "- [ ]".data

/-- The done status token `- [x]`. -/
def doneTok : List Char := "- [x]".data

/-- The cancelled marker `- [-] ❌` used by the cancelled-listing filter. -/
def cancelledTok : List Char := "- [-] ❌".data

/-- The pending filter used by the Pending/Done/Cancel handlers:
`l.contains("- [ ]")`. -/
def isPendingLine (l : List Char) : Bool := containsSub pendingTok l

/-- The done filter used by the Done/LastWeek handlers: `l.contains("- [x]")`. -/
def isDoneLine (l : List Char) : Bool := containsSub doneTok l

/-- The cancelled filter used by the Cancel handler: `l.contains("- [-] ❌")`. -/
def isCancelledLine (l : List Char) : Bool := containsSub cancelledTok l

/-- `extract_date(line, DUE_DATE_RE)`: first regex capture, then chrono
parsing. -/
def decodeDueDate (l : List Char) : Option Date :=
  (findGlyphDate '📅' l).bind parseDateList

/-- `extract_date(line, COMPLETION_DATE_RE)`. -/
def decodeCompletionDate (l : List Char) : Option Date :=
  (findGlyphDate '✅' l).bind parseDateList

/-- Absolute indices (0-based, ascending file order) of the lines satisfying
`p`, starting the numbering at `k`. -/
def filteredIndicesFrom (p : List Char → Bool) (k : Nat) : List (List Char) → List Nat
  | [] => []
  | l :: rest =>
    if p l then k :: filteredIndicesFrom p (k + 1) rest
    else filteredIndicesFrom p (k + 1) rest

/-- Absolute indices, in file order, of the lines satisfying `p`.  Models
`lines.iter().enumerate().filter(..).map(|(i, _)| i)`. -/
def filteredIndices (p : List Char → Bool) (lines : List (List Char)) : List Nat :=
  filteredIndicesFrom p 0 lines

/-- `line.strip_prefix("- ").unwrap_or(line)`. -/
def displayLine (l : List Char) : List Char :=
  if "- ".data.isPrefixOf l then l.drop 2 else l

/-- Displayed entries of the enumerate-then-filter listings (Today, Week,
LastWeek): each line satisfying `p` is printed as `(i + 1) - displayLine`
where `i` is its absolute index (the enumeration happens before the
filter). -/
def entriesFrom (p : List Char → Bool) (k : Nat) : List (List Char) → List (Nat × List Char)
  | [] => []
  | l :: rest =>
    if p l then (k + 1, displayLine l) :: entriesFrom p (k + 1) rest
    else entriesFrom p (k + 1) rest

/-- Number resolution of the Done/Cancel handlers: the pending indices are
collected in file order, reversed (newest first), the number is range-checked
against their count, and `pending[n - 1]` is the absolute index. -/
def resolvePending (lines : List (List Char)) (n : Nat) : Option Nat :=
  let pendingR := (filteredIndices isPendingLine lines).reverse
  if n = 0 ∨ n > pendingR.length then none else pendingR.get? (n - 1)

/-- `text.join(" ")`. -/
def joinSp (ts : List (List Char)) : List Char :=
  List.intercalate " ".data ts

/-- The Add handler's due-date/task-text split: a first argument is taken as
the due date exactly when its byte length is 10 and its fifth character is
`-`; otherwise it is prepended to the task text and today's date is used. -/
def addParse (today : List Char) (dateArg : Option (List Char)) (text : List (List Char)) :
    List Char × List Char :=
  match dateArg with
  | some d =>
    if byteLen d = 10 ∧ d.get? 4 = some '-' then (d, joinSp text)
    else (today, joinSp (d :: text))
  | none => (today, joinSp text)

/-- The line appended by Add: `format!("- [ ] 📅 {} 📋 {} {}", due, today, text)`. -/
def addLine (today : List Char) (dateArg : Option (List Char)) (text : List (List Char)) :
    List Char :=
  "- [ ] 📅 ".data ++ (addParse today dateArg text).1 ++ " 📋 ".data ++ today ++
    " ".data ++ (addParse today dateArg text).2

/-- The Add handler: `none` models the empty-task-text error (no write);
otherwise the new line is appended at the end of the store. -/
def addOp (today : List Char) (dateArg : Option (List Char)) (text : List (List Char))
    (lines : List (List Char)) : Option (List (List Char)) :=
  if (addParse today dateArg text).2 = [] then none
  else some (lines ++ [addLine today dateArg text])

/-- The Today handler's per-line test: pending filter, then the raw due-date
capture is compared (as a string) with today's formatted date. -/
def todayPred (todayS : List Char) (l : List Char) : Bool :=
  isPendingLine l && decide ((findGlyphDate '📅' l).getD [] = todayS)

/-- Lines printed by Today, with their displayed numbers. -/
def todayEntries (todayS : List Char) (lines : List (List Char)) : List (Nat × List Char) :=
  entriesFrom (todayPred todayS) 0 lines

/-- The Week handler's per-line test: pending filter, then
`today <= due && due <= today + 7 days` on the parsed due date. -/
def weekPred (today : Date) (l : List Char) : Bool :=
  isPendingLine l &&
    match decodeDueDate l with
    | some d => dateLe today d && dateLe d (addDays 7 today)
    | none => false

/-- Lines printed by Week, with their displayed numbers. -/
def weekEntries (today : Date) (lines : List (List Char)) : List (Nat × List Char) :=
  entriesFrom (weekPred today) 0 lines

/-- The LastWeek handler's per-line test: done filter, then
`today - 7*weeks days <= completion && completion <= today`. -/
def lastweekPred (today : Date) (weeks : Nat) (l : List Char) : Bool :=
  isDoneLine l &&
    match decodeCompletionDate l with
    | some c => dateLe (subDays (7 * weeks) today) c && dateLe c today
    | none => false

/-- Lines printed by LastWeek, with their displayed numbers. -/
def lastweekEntries (today : Date) (weeks : Nat) (lines : List (List Char)) :
    List (Nat × List Char) :=
  entriesFrom (lastweekPred today weeks) 0 lines

/-- The Done handler's per-line rewrite:
`line.replace("- [ ]", format!("- [x] ✅ {}", completion_date))`. -/
def applyCompletionLine (dStr l : List Char) : List Char :=
  replaceAll pendingTok ("- [x] ✅ ".data ++ dStr) l

/-- One iteration of the Done handler's loop over task numbers: out-of-range
numbers leave the store untouched; in-range numbers rewrite the resolved
line.  The `pending` list is the one computed once, before the loop. -/
def doneStep (dStr : List Char) (pending : List Nat) (lines : List (List Char)) (n : Nat) :
    List (List Char) :=
  if n = 0 ∨ n > pending.length then lines
  else
    let idx := pending.getD (n - 1) 0
    lines.set idx (applyCompletionLine dStr (lines.getD idx []))

/-- The Done handler with a nonempty batch of task numbers. -/
def doneBatch (dStr : List Char) (lines : List (List Char)) (nums : List Nat) :
    List (List Char) :=
  nums.foldl (doneStep dStr ((filteredIndices isPendingLine lines).reverse)) lines

/-- The line written by the Cancel handler for a resolved line `l`:
`format!("- [-] ❌ {} {} ~~{}~~", date, date_part, task_text)` where
`date_part` is the `DATE_PART_RE` capture (or `""`) and `task_text` is the
remainder of the line after `date_part`, trimmed. -/
def cancelLineOf (dStr l : List Char) : List Char :=
  "- [-] ❌ ".data ++ dStr ++ " ".data ++ (findDatePart l).getD [] ++
    " ~~".data ++ trimChars (splitnRemainder ((findDatePart l).getD []) l) ++ "~~".data

/-- The Cancel handler with a task number: `none` models the out-of-range
error (no write); otherwise the resolved line is rewritten in place. -/
def cancelOp (dStr : List Char) (lines : List (List Char)) (n : Nat) :
    Option (List (List Char)) :=
  let pendingR := (filteredIndices isPendingLine lines).reverse
  if n = 0 ∨ n > pendingR.length then none
  else
    let idx := pendingR.getD (n - 1) 0
    some (lines.set idx (cancelLineOf dStr (lines.getD idx [])))

/-! ### Helper lemmas -/

lemma isDigit_not_ws (c : Char) (h : c.isDigit = true) : c.isWhitespace = false := by
  cases hw : c.isWhitespace with
  | false => rfl
  | true =>
    exfalso
    simp only [Char.isWhitespace, Bool.or_eq_true, decide_eq_true_eq] at hw
    rcases hw with ((rfl | rfl) | rfl) | rfl <;> exact absurd h (by decide)

lemma ne_of_isDigit (c g : Char) (h : c.isDigit = true) (hg : g.isDigit = false) : c ≠ g := by
  intro he; subst he; rw [h] at hg; cases hg

lemma dateShape_spec (cs : List Char) (h : dateShape cs = true) :
    cs.length = 10 ∧ (∃ c cs', cs = c :: cs' ∧ c.isDigit = true) ∧
      (∀ c ∈ cs, c.isDigit = true ∨ c = '-') := by
  rcases cs with _ | ⟨y1, _ | ⟨y2, _ | ⟨y3, _ | ⟨y4, _ | ⟨h1, _ | ⟨m1, _ | ⟨m2, _ | ⟨h2, _ |
    ⟨d1, _ | ⟨d2, _ | ⟨e, tl⟩⟩⟩⟩⟩⟩⟩⟩⟩⟩⟩ <;>
    simp only [dateShape, Bool.and_eq_true, beq_iff_eq, Bool.false_eq_true] at h
  obtain ⟨⟨⟨⟨⟨⟨⟨⟨⟨hy1, hy2⟩, hy3⟩, hy4⟩, hh1⟩, hm1⟩, hm2⟩, hh2⟩, hd1⟩, hd2⟩ := h
  refine ⟨rfl, ⟨y1, _, rfl, hy1⟩, ?_⟩
  intro c hc
  simp only [List.mem_cons, List.not_mem_nil, or_false] at hc
  rcases hc with rfl | rfl | rfl | rfl | rfl | rfl | rfl | rfl | rfl | rfl
  · exact Or.inl hy1
  · exact Or.inl hy2
  · exact Or.inl hy3
  · exact Or.inl hy4
  · exact Or.inr hh1
  · exact Or.inl hm1
  · exact Or.inl hm2
  · exact Or.inr hh2
  · exact Or.inl hd1
  · exact Or.inl hd2

lemma isPrefixOf_append_self (l t : List Char) : l.isPrefixOf (l ++ t) = true := by
  induction l with
  | nil => simp [List.isPrefixOf]
  | cons a as ih => simp [List.isPrefixOf, ih]

lemma containsSub_cons_false (pat : List Char) (c : Char) (rest : List Char)
    (h : containsSub pat (c :: rest) = false) :
    pat.isPrefixOf (c :: rest) = false ∧ containsSub pat rest = false := by
  simpa [containsSub, Bool.or_eq_false_iff] using h

lemma replaceAllF_of_not_contains (pat rep : List Char) :
    ∀ (f : Nat) (s : List Char), containsSub pat s = false → replaceAllF pat rep f s = s := by
  intro f
  induction f with
  | zero => intro s _; rfl
  | succ f ih =>
    intro s hs
    cases s with
    | nil => rfl
    | cons c rest =>
      obtain ⟨h1, h2⟩ := containsSub_cons_false pat c rest hs
      simp only [replaceAllF, h1, false_and, and_false, if_neg, not_false_eq_true,
        ne_eq, Bool.false_eq_true]
      rw [ih rest h2]

lemma replaceAll_of_not_contains (pat rep s : List Char) (h : containsSub pat s = false) :
    replaceAll pat rep s = s :=
  replaceAllF_of_not_contains pat rep s.length s h

lemma replaceAllF_congr (pat rep : List Char) :
    ∀ (f g : Nat) (s : List Char), s.length ≤ f → s.length ≤ g →
      replaceAllF pat rep f s = replaceAllF pat rep g s := by
  intro f
  induction f with
  | zero =>
    intro g s hf _
    have : s = [] := List.length_eq_zero.mp (Nat.le_zero.mp hf)
    subst this
    cases g <;> rfl
  | succ f ih =>
    intro g s hf hg
    cases s with
    | nil => cases g <;> rfl
    | cons c rest =>
      cases g with
      | zero => exact absurd hg (by simp)
      | succ g =>
        by_cases hcond : pat ≠ [] ∧ pat.isPrefixOf (c :: rest) = true
        · simp only [replaceAllF, if_pos hcond]
          have h1 : 1 ≤ pat.length := by
            cases pat with
            | nil => exact absurd rfl hcond.1
            | cons _ _ => simp
          have hlen : ((c :: rest).drop pat.length).length ≤ f := by
            simp only [List.length_drop, List.length_cons]
            simp only [List.length_cons] at hf
            omega
          have hlen' : ((c :: rest).drop pat.length).length ≤ g := by
            simp only [List.length_drop, List.length_cons]
            simp only [List.length_cons] at hg
            omega
          rw [ih g _ hlen hlen']
        · simp only [replaceAllF, if_neg hcond]
          have hr : rest.length ≤ f := by simp at hf; omega
          have hr' : rest.length ≤ g := by simp at hg; omega
          rw [ih g rest hr hr']

lemma replaceAll_append (pat rep rest : List Char) (hp : pat ≠ []) :
    replaceAll pat rep (pat ++ rest) = rep ++ replaceAll pat rep rest := by
  cases pat with
  | nil => exact absurd rfl hp
  | cons p0 pt =>
    have hpre : (p0 :: pt).isPrefixOf (p0 :: (pt ++ rest)) = true := by
      have := isPrefixOf_append_self (p0 :: pt) rest
      rwa [List.cons_append] at this
    have hdrop : (p0 :: (pt ++ rest)).drop (p0 :: pt).length = rest := by
      have := List.drop_left (p0 :: pt) rest
      rwa [List.cons_append] at this
    have hcond : p0 :: pt ≠ [] ∧ (p0 :: pt).isPrefixOf (p0 :: (pt ++ rest)) = true :=
      ⟨hp, hpre⟩
    show replaceAllF (p0 :: pt) rep ((p0 :: pt) ++ rest).length ((p0 :: pt) ++ rest) =
      rep ++ replaceAllF (p0 :: pt) rep rest.length rest
    rw [List.cons_append, List.length_cons]
    simp only [replaceAllF, if_pos hcond, hdrop]
    congr 1
    exact replaceAllF_congr _ _ _ _ rest
      (by simp only [List.length_append]; omega) (le_refl _)

lemma filteredIndicesFrom_ge (p : List Char → Bool) :
    ∀ (lines : List (List Char)) (k m : Nat), m ∈ filteredIndicesFrom p k lines → k ≤ m := by
  intro lines
  induction lines with
  | nil => intro k m h; simp [filteredIndicesFrom] at h
  | cons l rest ih =>
    intro k m h
    simp only [filteredIndicesFrom] at h
    by_cases hp : p l
    · rw [if_pos hp] at h
      rcases List.mem_cons.mp h with rfl | h
      · exact le_refl _
      · exact Nat.le_of_succ_le (ih (k + 1) m h)
    · rw [if_neg hp] at h
      exact Nat.le_of_succ_le (ih (k + 1) m h)

lemma mem_filteredIndicesFrom (p : List Char → Bool) :
    ∀ (lines : List (List Char)) (k i : Nat),
      (k + i) ∈ filteredIndicesFrom p k lines ↔
        ∃ l, lines.get? i = some l ∧ p l = true := by
  intro lines
  induction lines with
  | nil => intro k i; simp [filteredIndicesFrom]
  | cons l rest ih =>
    intro k i
    cases i with
    | zero =>
      simp only [Nat.add_zero, filteredIndicesFrom, List.get?_cons_zero]
      by_cases hp : p l
      · rw [if_pos hp]
        simp only [List.mem_cons, true_or, true_iff]
        exact ⟨l, rfl, hp⟩
      · rw [if_neg hp]
        constructor
        · intro h
          exact absurd (filteredIndicesFrom_ge p rest (k + 1) k h) (by omega)
        · rintro ⟨l', hl', hpl'⟩
          cases hl'
          exact absurd hpl' (by simp [hp])
    | succ j =>
      have hks : k + (j + 1) = (k + 1) + j := by omega
      simp only [filteredIndicesFrom, List.get?_cons_succ, hks]
      by_cases hp : p l
      · rw [if_pos hp]
        rw [List.mem_cons]
        constructor
        · rintro (h | h)
          · omega
          · exact (ih (k + 1) j).mp h
        · intro h
          exact Or.inr ((ih (k + 1) j).mpr h)
      · rw [if_neg hp]
        exact ih (k + 1) j

lemma mem_filteredIndices (p : List Char → Bool) (lines : List (List Char)) (i : Nat) :
    i ∈ filteredIndices p lines ↔ ∃ l, lines.get? i = some l ∧ p l = true := by
  have := mem_filteredIndicesFrom p lines 0 i
  simpa using this

lemma entriesFrom_map_fst (p : List Char → Bool) :
    ∀ (lines : List (List Char)) (k : Nat),
      (entriesFrom p k lines).map Prod.fst =
        (filteredIndicesFrom p k lines).map (· + 1) := by
  intro lines
  induction lines with
  | nil => intro k; rfl
  | cons l rest ih =>
    intro k
    simp only [entriesFrom, filteredIndicesFrom]
    by_cases hp : p l
    · rw [if_pos hp, if_pos hp]
      simp only [List.map_cons]
      rw [ih (k + 1)]
    · rw [if_neg hp, if_neg hp]
      exact ih (k + 1)

lemma findGlyphDate_cons_ne (g c : Char) (rest : List Char) (hc : c ≠ g) :
    findGlyphDate g (c :: rest) = findGlyphDate g rest := by
  rw [findGlyphDate, if_neg hc]

lemma findGlyphDate_append (g : Char) :
    ∀ (a s : List Char), (∀ c ∈ a, c ≠ g) → findGlyphDate g (a ++ s) = findGlyphDate g s := by
  intro a
  induction a with
  | nil => intro s _; rfl
  | cons c a' ih =>
    intro s h
    rw [List.cons_append, findGlyphDate_cons_ne g c _ (h c (List.mem_cons_self c a'))]
    exact ih s (fun c' hc' => h c' (List.mem_cons_of_mem c hc'))

lemma findGlyphDate_glyph_space (g : Char) (dStr rest : List Char)
    (hd : dateShape dStr = true) :
    findGlyphDate g (g :: ' ' :: (dStr ++ rest)) = some dStr := by
  obtain ⟨hlen, ⟨c0, cs', hds, hc0⟩, _⟩ := dateShape_spec dStr hd
  have hc0ws : c0.isWhitespace = false := isDigit_not_ws c0 hc0
  have htw2 : (dStr ++ rest).takeWhile Char.isWhitespace = [] := by
    rw [hds, List.cons_append, List.takeWhile_cons]
    simp [hc0ws]
  have hdw2 : (dStr ++ rest).dropWhile Char.isWhitespace = dStr ++ rest := by
    rw [hds, List.cons_append, List.dropWhile_cons]
    simp [hc0ws]
  have hcand : (dStr ++ rest).take 10 = dStr := List.take_left' hlen
  rw [findGlyphDate, if_pos rfl]
  simp only [List.takeWhile_cons, List.dropWhile_cons, Char.isWhitespace, decide_True,
    Bool.or_true, Bool.true_or, if_pos, htw2, hdw2, hcand]
  simp [hd]

/-! ### Claims -/

/-- A small concrete store used by the witnesses: one done line followed by
two pending lines. -/
def sampleLines : List (List Char) :=
  ["- [x] ✅ 2025-05-30 📅 2025-05-30 📋 2025-05-01 Ship build".data,
   "- [ ] 📅 2025-06-10 📋 2025-06-01 Water plants".data,
   "- [ ] 📅 2025-06-11 📋 2025-06-02 File taxes".data]

/-- Claim C1: with M pending lines, resolving a user number N against the
newest-first pending view (as the done and cancel commands do) fails exactly
when N < 1 or N > M, and otherwise yields the absolute index of the
(M - N + 1)-th pending line in file order (0-based position M - N). -/
theorem resolvePending_spec (lines : List (List Char)) (n : Nat) :
    (resolvePending lines n = none ↔
      (n < 1 ∨ n > (filteredIndices isPendingLine lines).length)) ∧
    (1 ≤ n → n ≤ (filteredIndices isPendingLine lines).length →
      resolvePending lines n =
        (filteredIndices isPendingLine lines).get?
          ((filteredIndices isPendingLine lines).length - n)) := by
  simp only [resolvePending, List.length_reverse]
  by_cases hc : n = 0 ∨ n > (filteredIndices isPendingLine lines).length
  · rw [if_pos hc]
    constructor
    · constructor
      · intro _
        rcases hc with h | h
        · exact Or.inl (by omega)
        · exact Or.inr h
      · intro _; rfl
    · intro h1 h2
      rcases hc with h | h <;> omega
  · rw [if_neg hc]
    push_neg at hc
    obtain ⟨h0, hle⟩ := hc
    have hn1 : n - 1 < (filteredIndices isPendingLine lines).length := by omega
    constructor
    · constructor
      · intro h
        rw [List.get?_eq_none] at h
        rw [List.length_reverse] at h
        omega
      · intro h
        rcases h with h | h <;> omega
    · intro _ _
      rw [List.get?_reverse hn1]
      congr 1
      omega

/-- Witness for C1 at a concrete store with two pending lines: number 1
resolves to the later pending line (absolute index 2). -/
theorem resolvePending_spec_witness :
    (resolvePending sampleLines 1 = none ↔
      (1 < 1 ∨ 1 > (filteredIndices isPendingLine sampleLines).length)) ∧
    resolvePending sampleLines 1 =
      (filteredIndices isPendingLine sampleLines).get?
        ((filteredIndices isPendingLine sampleLines).length - 1) :=
  ⟨(resolvePending_spec sampleLines 1).1,
   (resolvePending_spec sampleLines 1).2 (by decide) (by decide)⟩

lemma mem_filteredIndices_of_get? (p : List Char → Bool) (lines : List (List Char))
    (i : Nat) (l : List Char) (h : lines.get? i = some l) :
    i ∈ filteredIndices p lines ↔ p l = true := by
  rw [mem_filteredIndices]
  constructor
  · rintro ⟨l', hl', hp⟩
    rw [h] at hl'
    cases hl'
    exact hp
  · intro hp
    exact ⟨l, h, hp⟩

/-- Claim C5 counterexample: the line `x - [ ] y` has no recognized status
token at its start, yet it is classified as pending (the code tests substring
containment, not a line-start token), so it is not excluded from the
pending-filtered view. -/
theorem status_not_at_start_cex :
    filteredIndices isPendingLine ["x - [ ] y".data] = [0] ∧
    pendingTok.isPrefixOf "x - [ ] y".data = false := by
  decide

/-- Claim C5 (amended): a line's membership in each status-filtered view is
determined by containment of the corresponding status token anywhere in the
line (Rust's `contains`), not at the line's start; a line containing none of
the tokens is excluded from every view, and classification is total (never a
failure). -/
theorem status_containment_spec (lines : List (List Char)) (i : Nat) (l : List Char)
    (h : lines.get? i = some l) :
    (i ∈ filteredIndices isPendingLine lines ↔ containsSub pendingTok l = true) ∧
    (i ∈ filteredIndices isDoneLine lines ↔ containsSub doneTok l = true) ∧
    (i ∈ filteredIndices isCancelledLine lines ↔ containsSub cancelledTok l = true) :=
  ⟨mem_filteredIndices_of_get? isPendingLine lines i l h,
   mem_filteredIndices_of_get? isDoneLine lines i l h,
   mem_filteredIndices_of_get? isCancelledLine lines i l h⟩

/-- Witness for C5 at the sample store's second line. -/
theorem status_containment_spec_witness :
    sampleLines.get? 1 = some "- [ ] 📅 2025-06-10 📋 2025-06-01 Water plants".data ∧
    ((1 ∈ filteredIndices isPendingLine sampleLines ↔
        containsSub pendingTok "- [ ] 📅 2025-06-10 📋 2025-06-01 Water plants".data = true) ∧
     (1 ∈ filteredIndices isDoneLine sampleLines ↔
        containsSub doneTok "- [ ] 📅 2025-06-10 📋 2025-06-01 Water plants".data = true) ∧
     (1 ∈ filteredIndices isCancelledLine sampleLines ↔
        containsSub cancelledTok "- [ ] 📅 2025-06-10 📋 2025-06-01 Water plants".data = true)) :=
  ⟨by decide,
   status_containment_spec sampleLines 1
     "- [ ] 📅 2025-06-10 📋 2025-06-01 Water plants".data (by decide)⟩

/-- Claim C6 counterexample: a store whose first line is done and whose
second (and only matching) line is due today.  The Today listing shows that
line with number 2, not 1, so the k-th matching line is not shown with
number k. -/
theorem today_numbering_cex :
    ¬ ((todayEntries "2025-06-01".data
        ["- [x] ✅ 2025-05-30 📅 2025-05-30 📋 2025-05-01 Ship build".data,
         "- [ ] 📅 2025-06-01 📋 2025-06-01 Call Bob".data]).map Prod.fst = [1]) ∧
    (todayEntries "2025-06-01".data
        ["- [x] ✅ 2025-05-30 📅 2025-05-30 📋 2025-05-01 Ship build".data,
         "- [ ] 📅 2025-06-01 📋 2025-06-01 Call Bob".data]).map Prod.fst = [2] := by
  decide

/-- Claim C6 (amended): the Today/Week/LastWeek listings enumerate before
filtering, so each matching line is displayed with its absolute file
position plus one (ascending but not necessarily consecutive), not with a
consecutive 1-based rank over the filtered sequence. -/
theorem fileOrder_numbering_spec (todayS : List Char) (today : Date) (weeks : Nat)
    (lines : List (List Char)) :
    (todayEntries todayS lines).map Prod.fst =
      (filteredIndices (todayPred todayS) lines).map (· + 1) ∧
    (weekEntries today lines).map Prod.fst =
      (filteredIndices (weekPred today) lines).map (· + 1) ∧
    (lastweekEntries today weeks lines).map Prod.fst =
      (filteredIndices (lastweekPred today weeks) lines).map (· + 1) :=
  ⟨entriesFrom_map_fst _ lines 0, entriesFrom_map_fst _ lines 0,
   entriesFrom_map_fst _ lines 0⟩

/-- Claim C7: an out-of-range task number (zero, or above the pending count)
mutates nothing — the done-loop iteration returns the store unchanged
whatever the accumulated store is, a done batch behaves as if the bad number
were absent, and cancel refuses to write. -/
theorem out_of_range_no_mutation (dStr : List Char) (lines : List (List Char)) (n : Nat)
    (as bs : List Nat)
    (h : n = 0 ∨ n > (filteredIndices isPendingLine lines).length) :
    (∀ acc, doneStep dStr ((filteredIndices isPendingLine lines).reverse) acc n = acc) ∧
    doneBatch dStr lines (as ++ n :: bs) = doneBatch dStr lines (as ++ bs) ∧
    cancelOp dStr lines n = none := by
  have h' : n = 0 ∨ n > ((filteredIndices isPendingLine lines).reverse).length := by
    rw [List.length_reverse]
    exact h
  have hid : ∀ acc, doneStep dStr ((filteredIndices isPendingLine lines).reverse) acc n = acc := by
    intro acc
    unfold doneStep
    rw [if_pos h']
  refine ⟨hid, ?_, ?_⟩
  · unfold doneBatch
    simp only [List.foldl_append, List.foldl_cons]
    rw [hid]
  · simp only [cancelOp]
    rw [if_pos h']

/-- Witness for C7: number 5 is out of range for the sample store's two
pending lines; the batch `done 5 1` behaves like `done 1` and `cancel 5`
writes nothing. -/
theorem out_of_range_no_mutation_witness :
    (5 = 0 ∨ 5 > (filteredIndices isPendingLine sampleLines).length) ∧
    doneStep "2025-06-02".data ((filteredIndices isPendingLine sampleLines).reverse)
      sampleLines 5 = sampleLines ∧
    doneBatch "2025-06-02".data sampleLines ([] ++ 5 :: [1]) =
      doneBatch "2025-06-02".data sampleLines ([] ++ [1]) ∧
    cancelOp "2025-06-02".data sampleLines 5 = none :=
  ⟨by decide,
   (out_of_range_no_mutation "2025-06-02".data sampleLines 5 [] [1] (by decide)).1 sampleLines,
   (out_of_range_no_mutation "2025-06-02".data sampleLines 5 [] [1] (by decide)).2.1,
   (out_of_range_no_mutation "2025-06-02".data sampleLines 5 [] [1] (by decide)).2.2⟩

/-- Claim C9: a pending line with a parseable due date is listed by the week
filter exactly when `today <= due <= today + 7 days` (both endpoints
inclusive); with today = 2025-06-01 a task due 2025-06-08 (exactly 7 days
out) is included and one due 2025-06-09 is excluded. -/
theorem week_filter_spec (today : Date) (lines : List (List Char)) (i : Nat)
    (l : List Char) (d : Date) (h : lines.get? i = some l)
    (hp : isPendingLine l = true) (hd : decodeDueDate l = some d) :
    (i ∈ filteredIndices (weekPred today) lines ↔
      (dateLe today d = true ∧ dateLe d (addDays 7 today) = true)) ∧
    weekPred ⟨2025, 6, 1⟩ "- [ ] 📅 2025-06-08 📋 2025-06-01 Renew passport".data = true ∧
    weekPred ⟨2025, 6, 1⟩ "- [ ] 📅 2025-06-09 📋 2025-06-02 Rotate logs".data = false := by
  refine ⟨?_, by decide, by decide⟩
  rw [mem_filteredIndices_of_get? _ _ _ _ h]
  unfold weekPred
  rw [hp, hd]
  simp [Bool.and_eq_true]

/-- Witness for C9 at the sample store: with today = 2025-06-05, the pending
line due 2025-06-10 (index 1) is within the inclusive 7-day window. -/
theorem week_filter_spec_witness :
    (sampleLines.get? 1 = some "- [ ] 📅 2025-06-10 📋 2025-06-01 Water plants".data ∧
     isPendingLine "- [ ] 📅 2025-06-10 📋 2025-06-01 Water plants".data = true ∧
     decodeDueDate "- [ ] 📅 2025-06-10 📋 2025-06-01 Water plants".data =
       some ⟨2025, 6, 10⟩) ∧
    ((1 ∈ filteredIndices (weekPred ⟨2025, 6, 5⟩) sampleLines ↔
      (dateLe ⟨2025, 6, 5⟩ ⟨2025, 6, 10⟩ = true ∧
       dateLe ⟨2025, 6, 10⟩ (addDays 7 ⟨2025, 6, 5⟩) = true)) ∧
     weekPred ⟨2025, 6, 1⟩ "- [ ] 📅 2025-06-08 📋 2025-06-01 Renew passport".data = true ∧
     weekPred ⟨2025, 6, 1⟩ "- [ ] 📅 2025-06-09 📋 2025-06-02 Rotate logs".data = false) :=
  ⟨⟨by decide, by decide, by decide⟩,
   week_filter_spec ⟨2025, 6, 5⟩ sampleLines 1
     "- [ ] 📅 2025-06-10 📋 2025-06-01 Water plants".data ⟨2025, 6, 10⟩
     (by decide) (by decide) (by decide)⟩

lemma containsSub_of_pre (pat s : List Char) (h : pat.isPrefixOf s = true) :
    containsSub pat s = true := by
  cases s with
  | nil =>
    cases pat with
    | nil => rfl
    | cons p pt => simp [List.isPrefixOf] at h
  | cons c rest => simp [containsSub, h]

lemma isPendingLine_append (rest : List Char) :
    isPendingLine (pendingTok ++ rest) = true :=
  containsSub_of_pre pendingTok _ (isPrefixOf_append_self pendingTok rest)

lemma applyCompletionLine_std (rest dStr : List Char)
    (h1 : containsSub pendingTok rest = false) :
    applyCompletionLine dStr (pendingTok ++ rest) = "- [x] ✅ ".data ++ dStr ++ rest := by
  unfold applyCompletionLine
  rw [replaceAll_append pendingTok _ rest (by decide),
    replaceAll_of_not_contains pendingTok _ rest h1, List.append_assoc]

lemma doneBatch_singleton (dStr l : List Char) (hl : isPendingLine l = true) :
    doneBatch dStr [l] [1] = [applyCompletionLine dStr l] := by
  unfold doneBatch
  have hfi : filteredIndices isPendingLine [l] = [0] := by
    unfold filteredIndices filteredIndicesFrom
    rw [if_pos hl]
    rfl
  rw [hfi]
  simp only [List.reverse_cons, List.reverse_nil, List.nil_append, List.foldl_cons,
    List.foldl_nil]
  unfold doneStep
  rw [if_neg (by decide : ¬ (1 = 0 ∨ 1 > [0].length))]
  rfl

/-- Claim C2 (the code contradicts it): cancelling the single pending line
with due 2025-06-10, created 2025-06-01 and body Old task.  The
`DATE_PART_RE` capture stops at the creation glyph — its trailing `[^\s]*`
can never include the creation date because a space follows 📋 — so the
cancelled line keeps only `📅 2025-06-10 📋` of the span and the creation
date is swallowed into the strikethrough body: the body is rendered as
`~~2025-06-01 Old task~~`, not `~~Old task~~`. -/
theorem cancel_dateSpan_bug :
    findDatePart "- [ ] 📅 2025-06-10 📋 2025-06-01 Old task".data =
      some "📅 2025-06-10 📋".data ∧
    cancelOp "2025-06-12".data
        ["- [ ] 📅 2025-06-10 📋 2025-06-01 Old task".data] 1 =
      some ["- [-] ❌ 2025-06-12 📅 2025-06-10 📋 ~~2025-06-01 Old task~~".data] ∧
    containsSub "📋 2025-06-01".data
      "- [-] ❌ 2025-06-12 📅 2025-06-10 📋 ~~2025-06-01 Old task~~".data = false ∧
    containsSub "~~Old task~~".data
      "- [-] ❌ 2025-06-12 📅 2025-06-10 📋 ~~2025-06-01 Old task~~".data = false := by
  decide

/-- Claim C3 counterexample: a pending line whose body itself contains the
pending token.  `replace` rewrites every occurrence, so marking it done also
rewrites the body text. -/
theorem applyCompletion_body_changed_cex :
    isPendingLine "- [ ] 📅 2025-06-10 📋 2025-06-01 tick - [ ] box".data = true ∧
    applyCompletionLine "2025-06-02".data
        "- [ ] 📅 2025-06-10 📋 2025-06-01 tick - [ ] box".data =
      "- [x] ✅ 2025-06-02 📅 2025-06-10 📋 2025-06-01 tick - [x] ✅ 2025-06-02 box".data ∧
    containsSub "tick - [ ] box".data
      "- [ ] 📅 2025-06-10 📋 2025-06-01 tick - [ ] box".data = true ∧
    containsSub "tick - [ ] box".data
      "- [x] ✅ 2025-06-02 📅 2025-06-10 📋 2025-06-01 tick - [x] ✅ 2025-06-02 box".data
      = false := by
  decide

/-- Claim C3 (amended): for a pending line that starts with the pending
token and contains it exactly once (in particular every line in the standard
encoded format with a token-free body), marking done with a well-formed date
string yields Done status, decodes that completion date, and leaves the
whole remainder of the line — hence the due date, created date and body —
unchanged. -/
theorem applyCompletion_pending_spec (rest dStr : List Char)
    (h1 : containsSub pendingTok rest = false)
    (h2 : dateShape dStr = true) :
    isPendingLine (pendingTok ++ rest) = true ∧
    applyCompletionLine dStr (pendingTok ++ rest) = "- [x] ✅ ".data ++ dStr ++ rest ∧
    isDoneLine (applyCompletionLine dStr (pendingTok ++ rest)) = true ∧
    decodeCompletionDate (applyCompletionLine dStr (pendingTok ++ rest)) =
      parseDateList dStr ∧
    decodeDueDate (applyCompletionLine dStr (pendingTok ++ rest)) =
      decodeDueDate (pendingTok ++ rest) := by
  have hrepl := applyCompletionLine_std rest dStr h1
  obtain ⟨hlen, _, hall⟩ := dateShape_spec dStr h2
  have hdchars : ∀ c ∈ dStr, c ≠ '📅' := by
    intro c hc
    rcases hall c hc with hdig | rfl
    · exact ne_of_isDigit c '📅' hdig (by decide)
    · decide
  refine ⟨isPendingLine_append rest, hrepl, ?_, ?_, ?_⟩
  · rw [hrepl]
    rw [show ("- [x] ✅ ".data : List Char) = doneTok ++ " ✅ ".data from rfl,
      List.append_assoc, List.append_assoc]
    exact containsSub_of_pre doneTok _ (isPrefixOf_append_self doneTok _)
  · rw [hrepl]
    unfold decodeCompletionDate
    have hsplit : "- [x] ✅ ".data ++ dStr ++ rest =
        "- [x] ".data ++ ('✅' :: ' ' :: (dStr ++ rest)) := rfl
    rw [hsplit, findGlyphDate_append '✅' "- [x] ".data _ (by decide),
      findGlyphDate_glyph_space '✅' dStr rest h2]
    rfl
  · rw [hrepl]
    unfold decodeDueDate
    have hpre9 : ∀ c ∈ ("- [x] ✅ ".data : List Char), c ≠ '📅' := by decide
    have hLnot : ∀ c ∈ "- [x] ✅ ".data ++ dStr, c ≠ '📅' := by
      intro c hc
      rcases List.mem_append.mp hc with hc | hc
      · exact hpre9 c hc
      · exact hdchars c hc
    have hRnot : ∀ c ∈ pendingTok, c ≠ '📅' := by decide
    rw [findGlyphDate_append '📅' _ rest hLnot, findGlyphDate_append '📅' _ rest hRnot]

/-- Witness for C3: the standard pending line for Water plants, completed on
2025-06-02. -/
theorem applyCompletion_pending_spec_witness :
    (containsSub pendingTok " 📅 2025-06-10 📋 2025-06-01 Water plants".data = false ∧
     dateShape "2025-06-02".data = true) ∧
    (isPendingLine (pendingTok ++ " 📅 2025-06-10 📋 2025-06-01 Water plants".data) = true ∧
     applyCompletionLine "2025-06-02".data
         (pendingTok ++ " 📅 2025-06-10 📋 2025-06-01 Water plants".data) =
       "- [x] ✅ ".data ++ "2025-06-02".data ++
         " 📅 2025-06-10 📋 2025-06-01 Water plants".data ∧
     isDoneLine (applyCompletionLine "2025-06-02".data
       (pendingTok ++ " 📅 2025-06-10 📋 2025-06-01 Water plants".data)) = true ∧
     decodeCompletionDate (applyCompletionLine "2025-06-02".data
         (pendingTok ++ " 📅 2025-06-10 📋 2025-06-01 Water plants".data)) =
       parseDateList "2025-06-02".data ∧
     decodeDueDate (applyCompletionLine "2025-06-02".data
         (pendingTok ++ " 📅 2025-06-10 📋 2025-06-01 Water plants".data)) =
       decodeDueDate (pendingTok ++ " 📅 2025-06-10 📋 2025-06-01 Water plants".data)) :=
  ⟨⟨by decide, by decide⟩,
   applyCompletion_pending_spec " 📅 2025-06-10 📋 2025-06-01 Water plants".data
     "2025-06-02".data (by decide) (by decide)⟩

/-- Claim C4 counterexample: marking done the standard pending line for
Write report.  The code replaces the status token by `- [x] ✅ date`, so the
completion date lands directly after the status token, before the due date —
not after the creation date as the claimed format says. -/
theorem done_format_order_cex :
    doneBatch "2025-06-02".data
        ["- [ ] 📅 2025-06-10 📋 2025-06-01 Write report".data] [1] =
      ["- [x] ✅ 2025-06-02 📅 2025-06-10 📋 2025-06-01 Write report".data] ∧
    "- [x] ✅ 2025-06-02 📅 2025-06-10 📋 2025-06-01 Write report".data ≠
      "- [x] 📅 2025-06-10 📋 2025-06-01 ✅ 2025-06-02 Write report".data := by
  decide

/-- Claim C4 (amended): marking done a pending line in the standard
backing-store format produces the Done token, then the completion glyph and
date, then the due-date glyph and date, then the creation glyph and date,
then the body, in that order. -/
theorem done_format_spec (d1 d2 body dStr : List Char)
    (h : containsSub pendingTok
        (" 📅 ".data ++ d1 ++ " 📋 ".data ++ d2 ++ " ".data ++ body) = false) :
    doneBatch dStr
        ["- [ ] 📅 ".data ++ d1 ++ " 📋 ".data ++ d2 ++ " ".data ++ body] [1] =
      ["- [x] ✅ ".data ++ dStr ++
        (" 📅 ".data ++ d1 ++ " 📋 ".data ++ d2 ++ " ".data ++ body)] := by
  have hline : ("- [ ] 📅 ".data ++ d1 ++ " 📋 ".data ++ d2 ++ " ".data ++ body) =
      pendingTok ++ (" 📅 ".data ++ d1 ++ " 📋 ".data ++ d2 ++ " ".data ++ body) := by
    rw [show ("- [ ] 📅 ".data : List Char) = pendingTok ++ " 📅 ".data from rfl]
    simp only [List.append_assoc]
  rw [hline, doneBatch_singleton dStr _ (isPendingLine_append _),
    applyCompletionLine_std _ dStr h]

/-- Witness for C4 at the Write report line, completed on 2025-06-02. -/
theorem done_format_spec_witness :
    containsSub pendingTok
        (" 📅 ".data ++ "2025-06-10".data ++ " 📋 ".data ++ "2025-06-01".data ++
          " ".data ++ "Write report".data) = false ∧
    doneBatch "2025-06-02".data
        ["- [ ] 📅 ".data ++ "2025-06-10".data ++ " 📋 ".data ++ "2025-06-01".data ++
          " ".data ++ "Write report".data] [1] =
      ["- [x] ✅ ".data ++ "2025-06-02".data ++
        (" 📅 ".data ++ "2025-06-10".data ++ " 📋 ".data ++ "2025-06-01".data ++
          " ".data ++ "Write report".data)] :=
  ⟨by decide,
   done_format_spec "2025-06-10".data "2025-06-01".data "Write report".data
     "2025-06-02".data (by decide)⟩

/-- Claim C8: add appends exactly one new line at the end of the store, and
done/cancel with a number that resolves (in-range) rewrite only the resolved
line in place — the length, the order, and every other line are unchanged,
and no line is removed. -/
theorem ops_frame_spec (today : List Char) (dateArg : Option (List Char))
    (text : List (List Char)) (dStr : List Char) (lines : List (List Char))
    (n idx : Nat) (h : resolvePending lines n = some idx) :
    (∀ lines', addOp today dateArg text lines = some lines' →
      lines' = lines ++ [addLine today dateArg text]) ∧
    idx < lines.length ∧
    doneBatch dStr lines [n] =
      lines.set idx (applyCompletionLine dStr (lines.getD idx [])) ∧
    (doneBatch dStr lines [n]).length = lines.length ∧
    (∀ j, j ≠ idx → (doneBatch dStr lines [n]).get? j = lines.get? j) ∧
    cancelOp dStr lines n =
      some (lines.set idx (cancelLineOf dStr (lines.getD idx []))) ∧
    (∀ lines', cancelOp dStr lines n = some lines' →
      lines'.length = lines.length ∧ ∀ j, j ≠ idx → lines'.get? j = lines.get? j) := by
  simp only [resolvePending] at h
  by_cases hg : n = 0 ∨ n > ((filteredIndices isPendingLine lines).reverse).length
  · rw [if_pos hg] at h
    cases h
  rw [if_neg hg] at h
  have hidxmem : idx ∈ (filteredIndices isPendingLine lines).reverse := List.get?_mem h
  rw [List.mem_reverse] at hidxmem
  obtain ⟨l, hl, _⟩ := (mem_filteredIndices isPendingLine lines idx).mp hidxmem
  have hlt : idx < lines.length := by
    obtain ⟨hb, -⟩ := List.get?_eq_some.mp hl
    exact hb
  have hgetD : ((filteredIndices isPendingLine lines).reverse).getD (n - 1) 0 = idx := by
    rw [List.getD_eq_get?, h]
    rfl
  have hdone : doneBatch dStr lines [n] =
      lines.set idx (applyCompletionLine dStr (lines.getD idx [])) := by
    unfold doneBatch
    rw [List.foldl_cons, List.foldl_nil]
    unfold doneStep
    rw [if_neg hg, hgetD]
  have hcancel : cancelOp dStr lines n =
      some (lines.set idx (cancelLineOf dStr (lines.getD idx []))) := by
    simp only [cancelOp]
    rw [if_neg hg, hgetD]
  refine ⟨?_, hlt, hdone, ?_, ?_, hcancel, ?_⟩
  · intro lines' ha
    unfold addOp at ha
    by_cases he : (addParse today dateArg text).2 = []
    · rw [if_pos he] at ha
      cases ha
    · rw [if_neg he] at ha
      exact (Option.some.injEq _ _).mp ha |>.symm
  · rw [hdone, List.length_set]
  · intro j hj
    rw [hdone]
    exact List.get?_set_ne _ _ (fun he => hj he.symm)
  · intro lines' hc
    rw [hcancel] at hc
    cases hc
    exact ⟨List.length_set _ _ _, fun j hj =>
      List.get?_set_ne _ _ (fun he => hj he.symm)⟩

/-- Witness for C8 at the sample store: number 1 resolves to absolute index
2; add, done and cancel all leave the rest of the store intact. -/
theorem ops_frame_spec_witness :
    resolvePending sampleLines 1 = some 2 ∧
    ((∀ lines', addOp "2025-06-02".data none ["Buy milk".data] sampleLines = some lines' →
        lines' = sampleLines ++ [addLine "2025-06-02".data none ["Buy milk".data]]) ∧
     2 < sampleLines.length ∧
     doneBatch "2025-06-02".data sampleLines [1] =
       sampleLines.set 2 (applyCompletionLine "2025-06-02".data (sampleLines.getD 2 [])) ∧
     (doneBatch "2025-06-02".data sampleLines [1]).length = sampleLines.length ∧
     (∀ j, j ≠ 2 → (doneBatch "2025-06-02".data sampleLines [1]).get? j =
        sampleLines.get? j) ∧
     cancelOp "2025-06-02".data sampleLines 1 =
       some (sampleLines.set 2 (cancelLineOf "2025-06-02".data (sampleLines.getD 2 []))) ∧
     (∀ lines', cancelOp "2025-06-02".data sampleLines 1 = some lines' →
        lines'.length = sampleLines.length ∧
          ∀ j, j ≠ 2 → lines'.get? j = sampleLines.get? j)) :=
  ⟨by decide,
   ops_frame_spec "2025-06-02".data none ["Buy milk".data] "2025-06-02".data
     sampleLines 1 2 (by decide)⟩

/-- Claim C10: the add command takes a first argument as the due date
exactly when its (byte) length is 10 and its character at index 4 is a
hyphen, with no calendar validation — `abcd-fghij` and `2025-13-99` are
stored verbatim as due dates (neither parses as a date) — while any other
first argument is prepended to the task text and today's date is used. -/
theorem add_date_detection_spec (today d : List Char) (text : List (List Char)) :
    ((byteLen d = 10 ∧ d.get? 4 = some '-') →
      addParse today (some d) text = (d, joinSp text)) ∧
    (¬ (byteLen d = 10 ∧ d.get? 4 = some '-') →
      addParse today (some d) text = (today, joinSp (d :: text))) ∧
    parseDateList "abcd-fghij".data = none ∧
    parseDateList "2025-13-99".data = none ∧
    addOp "2025-06-01".data (some "abcd-fghij".data) ["X".data] [] =
      some ["- [ ] 📅 abcd-fghij 📋 2025-06-01 X".data] ∧
    addOp "2025-06-01".data (some "2025-13-99".data) ["X".data] [] =
      some ["- [ ] 📅 2025-13-99 📋 2025-06-01 X".data] ∧
    addOp "2025-06-01".data (some "June".data) ["5th".data, "dentist".data] [] =
      some ["- [ ] 📅 2025-06-01 📋 2025-06-01 June 5th dentist".data] := by
  refine ⟨?_, ?_, by decide, by decide, by decide, by decide, by decide⟩
  · intro hc
    show (if byteLen d = 10 ∧ d.get? 4 = some '-' then (d, joinSp text)
      else (today, joinSp (d :: text))) = (d, joinSp text)
    rw [if_pos hc]
  · intro hc
    show (if byteLen d = 10 ∧ d.get? 4 = some '-' then (d, joinSp text)
      else (today, joinSp (d :: text))) = (today, joinSp (d :: text))
    rw [if_neg hc]

/-- Witness for C10: `2025-09-15` passes the shape test and is taken
verbatim as the due date. -/
theorem add_date_detection_spec_witness :
    (byteLen "2025-09-15".data = 10 ∧ "2025-09-15".data.get? 4 = some '-') ∧
    addParse "2025-06-01".data (some "2025-09-15".data) ["Finish".data] =
      ("2025-09-15".data, joinSp ["Finish".data]) :=
  ⟨by decide,
   (add_date_detection_spec "2025-06-01".data "2025-09-15".data ["Finish".data]).1
     (by decide)⟩
